import Mathlib

/-!
Shallow embedding of the khinsider-downloader scripts
(`src/main.py`, `src/khinsider_downloader.py`).

HTML access through BeautifulSoup is external to the repository, so a page
is modelled by the data the code reads out of it: the texts of `h2`
elements, the texts of the header cells (`th`) of each table, the `href`
attributes carried by `td.clickable-row` cells (document order), and for a
track detail page the `href` of the parent anchor of each element with
class `songDownloadLink`.  Strings are manipulated at the `List Char`
level where the Python code uses single-character `str` operations
(`unquote`, `replace`, `split`, `rsplit`), which is a faithful rendering
of those operations for the character data involved.
-/

/-- The failure modes the Python code can actually hit while parsing and
resolving.  `attributeError` models `None.text` (a missing element found
by `find`), `indexError` models out-of-range list indexing,
`stopIteration` models `next()` over an exhausted generator, and
`valueError` models `int()` on a malformed literal and unpacking an empty
tuple.  `invalidFormatIndexError` is modelled from the spec: the spec
names a dedicated `InvalidFormatIndexError`, but no such class exists in
the source and the code never raises it. -/
inductive PyErr where
  | attributeError
  | indexError
  | stopIteration
  | valueError
  | invalidFormatIndexError
deriving DecidableEq, Repr

/-- Value of a hexadecimal digit, as accepted by `urllib.parse.unquote`
(both lowercase and uppercase letters). -/
def hexVal (c : Char) : Option Nat :=
  if '0' ≤ c ∧ c ≤ '9' then some (c.toNat - 48)
  else if 'a' ≤ c ∧ c ≤ 'f' then some (c.toNat - 87)
  else if 'A' ≤ c ∧ c ≤ 'F' then some (c.toNat - 55)
  else none

/-- Embeds `urllib.parse.unquote` (main.py:206) at the character level:
each `%XX` escape with two hex digits becomes the character with that
code, malformed escapes are left as-is and scanning resumes after the
`%`.  (Python decodes multi-byte UTF-8 escape runs; the hrefs involved
here only carry single-byte escapes, where the two agree.) -/
def unquoteChars : List Char → List Char
  | [] => []
  | c :: rest =>
    if c = '%' then
      match rest with
      | a :: b :: rest2 =>
        match hexVal a, hexVal b with
        | some x, some y => Char.ofNat (16 * x + y) :: unquoteChars rest2
        | some _, none => '%' :: unquoteChars (a :: b :: rest2)
        | none, _ => '%' :: unquoteChars (a :: b :: rest2)
      | [a] => '%' :: unquoteChars [a]
      | [] => '%' :: unquoteChars []
    else
      c :: unquoteChars rest

/-- Embeds `.replace('#', '%23')` (main.py:206): every literal `#` is
rewritten to the three characters `%23`. -/
def replaceHash : List Char → List Char
  | [] => []
  | c :: rest =>
    if c = '#' then '%' :: '2' :: '3' :: replaceHash rest
    else c :: replaceHash rest

/-- Embeds `.replace('%23', '#')` (main.py:208): a left-to-right,
non-overlapping scan rewriting each occurrence of `%23` to `#`. -/
def replacePct23 : List Char → List Char
  | [] => []
  | c :: rest =>
    if c = '%' then
      match rest with
      | r1 :: r2 :: rest2 =>
        if r1 = '2' ∧ r2 = '3' then '#' :: replacePct23 rest2
        else '%' :: replacePct23 (r1 :: r2 :: rest2)
      | [r1] => '%' :: replacePct23 [r1]
      | [] => '%' :: replacePct23 []
    else
      c :: replacePct23 rest

/-- Embeds `s.rsplit('/', 1)[1]` (main.py:208): the suffix after the last
`/`, or `none` when the string has no `/` (in which case the Python
indexing `[1]` raises `IndexError`). -/
def lastSegment : List Char → Option (List Char)
  | [] => none
  | c :: rest =>
    match lastSegment rest with
    | some seg => some seg
    | none => if c = '/' then some rest else none

/-- The `DownloadTarget` produced for one track: the URL used for the
actual fetch and the local filename. -/
structure DownloadTarget where
  source_url : String
  filename : String
deriving DecidableEq, Repr

/-- A track detail page, abstracted to the `href` of the parent anchor of
each `songDownloadLink` element, in document order (main.py:200). -/
structure TrackPage where
  songDownloadLinkHrefs : List String
deriving DecidableEq, Repr

/-- The href-processing steps of `download_soundtracks` (main.py:206-208):
`source_url = unquote(raw_href).replace('#', '%23')` and
`filename = source_url.rsplit('/', 1)[1].replace('%23', '#')`. -/
def resolve_track_href (raw_href : String) : Except PyErr DownloadTarget :=
  let source_url : String := ⟨replaceHash (unquoteChars raw_href.data)⟩
  match lastSegment source_url.data with
  | none => .error .indexError
  | some seg => .ok ⟨source_url, ⟨replacePct23 seg⟩⟩

/-- The per-track resolution step of `download_soundtracks` (main.py:200,
206-208): index the `songDownloadLink` elements by the chosen format
(`IndexError` when out of range, as Python list indexing raises) and
process the href. -/
def resolve_track (page : TrackPage) (audio_format : Nat) :
    Except PyErr DownloadTarget :=
  match page.songDownloadLinkHrefs[audio_format]? with
  | none => .error .indexError
  | some raw => resolve_track_href raw

/-- The site's base origin (khinsider_downloader.py:16), prefixed to each
track href. -/
def BASE_URL : String := "https://downloads.khinsider.com"

/-- A table, abstracted to the texts of its header cells (`th`), in
document order. -/
structure HtmlTable where
  ths : List String
deriving DecidableEq, Repr

/-- An album page, abstracted to the data `get_album` reads: the texts of
its `h2` elements, its tables, and the hrefs of the `td.clickable-row`
cells that follow the soundtracks table in document order
(`find_all_next`, khinsider_downloader.py:112). -/
structure HtmlPage where
  h2s : List String
  tables : List HtmlTable
  clickableRowCells : List String
deriving DecidableEq, Repr

/-- The album record built by `KhinsiderDownloader.get_album`
(khinsider_downloader.py:58-67): title, duration, format names paired
with their sizes in bytes, and the track detail-page URLs. -/
structure KhinsiderAlbum where
  title : String
  duration : String
  formats_and_sizes : List (String × Nat)
  soundtrack_urls : List String
deriving DecidableEq, Repr

/-- Embeds Python `str.strip()` (khinsider_downloader.py:96,
main.py:106): remove whitespace characters from both ends. -/
def pyStrip (s : String) : String :=
  ⟨((s.data.dropWhile fun c => c.isWhitespace).reverse.dropWhile
      fun c => c.isWhitespace).reverse⟩

/-- Embeds the format-collection loop (khinsider_downloader.py:91-99,
main.py:105-109): walk the header cells from the MP3 cell onward,
appending each cell's stripped text while it is non-empty, and stop at
the first cell whose stripped text is empty. -/
def collectFormats : List String → List String
  | [] => []
  | th :: rest =>
    if pyStrip th = "" then [] else pyStrip th :: collectFormats rest

/-- Embeds the Python slice `th_list[-(cnt):-1]`
(khinsider_downloader.py:103, main.py:111): elements from index
`length - cnt` (clamped at 0) up to but excluding the last element. -/
def sliceDropLast1 (l : List String) (cnt : Nat) : List String :=
  (l.take (l.length - 1)).drop (l.length - cnt)

/-- Embeds Python `int()` on the non-negative decimal literals occurring
in size strings: fails (`ValueError`) unless the character list is a
non-empty run of decimal digits, in which case it is read base 10. -/
def pyInt (cs : List Char) : Except PyErr Nat :=
  if cs ≠ [] ∧ cs.all (fun c => c.isDigit) then
    .ok (cs.foldl (fun a c => 10 * a + (c.toNat - 48)) 0)
  else .error .valueError

/-- The base-10 value of a digit run, the reference meaning of a decimal
literal used to state what `pyInt` returns. -/
def decimalValue (cs : List Char) : Nat :=
  cs.foldl (fun a c => 10 * a + (c.toNat - 48)) 0

/-- Embeds one size-string conversion
(khinsider_downloader.py:107): `int(s.split(' ')[0].replace(',', '')) *
1_000_000` — the characters before the first space, with commas removed,
read as an integer and scaled by the decimal factor 1,000,000. -/
def parseSizeBytes (s : String) : Except PyErr Nat :=
  match pyInt ((s.data.takeWhile (fun c => c ≠ ' ')).filter (fun c => c ≠ ',')) with
  | .ok n => .ok (n * 1000000)
  | .error e => .error e

/-- Embeds `tuple(zip(album_formats, sizes))` where `sizes` is the lazy
`map` of `parseSizeBytes` over the size texts
(khinsider_downloader.py:107-109): pairs are produced until the shorter
sequence runs out, and only the size texts actually zipped are parsed. -/
def zipParseSizes : List String → List String → Except PyErr (List (String × Nat))
  | [], _ => .ok []
  | _ :: _, [] => .ok []
  | f :: fs, s :: ss =>
    match parseSizeBytes s with
    | .error e => .error e
    | .ok n =>
      match zipParseSizes fs ss with
      | .error e => .error e
      | .ok rest => .ok ((f, n) :: rest)

/-- Embeds the every-4th-cell selection `[::4]` (main.py:127), equally
the `i % 4 == 0` filter of khinsider_downloader.py:112: cells 0, 4, 8,
… of the marked-cell sequence. -/
def every4th : List String → List String
  | [] => []
  | x :: rest => x :: every4th (rest.drop 3)
termination_by l => l.length
decreasing_by
  simp only [List.length_cons, List.length_drop]
  omega

/-- Embeds the track-URL extraction (khinsider_downloader.py:112-113,
main.py:127-128): every 4th marked cell's href, prefixed with the site's
base origin, in source order. -/
def extractTrackUrls (cells : List String) : List String :=
  (every4th cells).map (fun href => BASE_URL ++ href)

/-- Embeds `KhinsiderDownloader.get_album` (khinsider_downloader.py:78-114;
the parsing in main.py:95-130 is identical up to size formatting):
first `h2` text as title (`AttributeError` when there is no `h2`),
second table as the soundtracks table (`IndexError` when there are fewer
than two), first header cell whose exact text is `"MP3"`
(`StopIteration` when absent), the format run from there, the
duration-and-sizes suffix slice `th_list[-(k+2):-1]` (unpacking `[]`
raises `ValueError`), the parsed sizes zipped with the format names, and
the track URLs. -/
def get_album (page : HtmlPage) : Except PyErr KhinsiderAlbum :=
  match page.h2s.head? with
  | none => .error .attributeError
  | some album_title =>
    match page.tables[1]? with
    | none => .error .indexError
    | some soundtracks_table =>
      let th_list := soundtracks_table.ths
      match th_list.findIdx? (fun th => th = "MP3") with
      | none => .error .stopIteration
      | some mp3_index =>
        let album_formats := collectFormats (th_list.drop mp3_index)
        match sliceDropLast1 th_list (album_formats.length + 2) with
        | [] => .error .valueError
        | album_duration :: sizeTexts =>
          match zipParseSizes album_formats sizeTexts with
          | .error e => .error e
          | .ok formats_and_sizes =>
            .ok { title := album_title
                  duration := album_duration
                  formats_and_sizes := formats_and_sizes
                  soundtrack_urls := extractTrackUrls page.clickableRowCells }

/-- The observable state of `download_soundtracks` (main.py:182-235):
the filenames present in the output directory (`isfile`), the URLs
requested over the network (`get`), in order, and the count of files
downloaded. -/
structure DlState where
  files : List String
  fetched : List String
  downloadCount : Nat
deriving DecidableEq, Repr

/-- Embeds the loop of `download_soundtracks` (main.py:195-234) over an
environment `pages` serving each track detail page.  Per track: the
detail page is fetched (`get(url)`, main.py:197), the download target is
resolved (an exception propagates), and if the filename already exists
the track is skipped (`continue`, main.py:212-214); otherwise the file
is fetched (`get(source_url)`, main.py:219), written, and counted. -/
def download_soundtracks (pages : String → TrackPage) (audio_format : Nat) :
    List String → DlState → Except PyErr DlState
  | [], st => .ok st
  | url :: rest, st =>
    let st1 : DlState :=
      { files := st.files, fetched := st.fetched ++ [url]
        downloadCount := st.downloadCount }
    match resolve_track (pages url) audio_format with
    | .error e => .error e
    | .ok target =>
      if target.filename ∈ st1.files then
        download_soundtracks pages audio_format rest st1
      else
        download_soundtracks pages audio_format rest
          { files := st1.files ++ [target.filename]
            fetched := st1.fetched ++ [target.source_url]
            downloadCount := st1.downloadCount + 1 }

/-! ### Helper lemmas about the character-level operations -/

/-- One step of `unquoteChars` on a character that is not `%`. -/
theorem unquoteChars_cons_ne (c : Char) (t : List Char) (h : c ≠ '%') :
    unquoteChars (c :: t) = c :: unquoteChars t := by
  rw [unquoteChars.eq_def]
  simp [h]

/-- `unquoteChars` leaves a `%`-free prefix untouched. -/
theorem unquoteChars_append_of_no_pct (l m : List Char) (h : '%' ∉ l) :
    unquoteChars (l ++ m) = l ++ unquoteChars m := by
  induction l with
  | nil => rfl
  | cons c t ih =>
    have hc : c ≠ '%' := fun hcEq => h (hcEq ▸ List.mem_cons_self c t)
    have ht : '%' ∉ t := fun hm => h (List.mem_cons_of_mem c hm)
    simp [unquoteChars_cons_ne c _ hc, ih ht]

/-- One step of `replaceHash` on a character that is not `#`. -/
theorem replaceHash_cons_ne (c : Char) (t : List Char) (h : c ≠ '#') :
    replaceHash (c :: t) = c :: replaceHash t := by
  rw [replaceHash.eq_def]
  simp [h]

/-- `replaceHash` leaves a `#`-free prefix untouched. -/
theorem replaceHash_append_of_no_hash (l m : List Char) (h : '#' ∉ l) :
    replaceHash (l ++ m) = l ++ replaceHash m := by
  induction l with
  | nil => rfl
  | cons c t ih =>
    have hc : c ≠ '#' := fun hcEq => h (hcEq ▸ List.mem_cons_self c t)
    have ht : '#' ∉ t := fun hm => h (List.mem_cons_of_mem c hm)
    simp [replaceHash_cons_ne c _ hc, ih ht]

/-- Unfolding `lastSegment` one step. -/
theorem lastSegment_cons (c : Char) (t : List Char) :
    lastSegment (c :: t) = match lastSegment t with
      | some seg => some seg
      | none => if c = '/' then some t else none := by
  rw [lastSegment.eq_def]

/-- A slash-free list has no last segment (no `/` to split at). -/
theorem lastSegment_eq_none (l : List Char) (h : '/' ∉ l) :
    lastSegment l = none := by
  induction l with
  | nil => rfl
  | cons c t ih =>
    have hc : c ≠ '/' := fun hcEq => h (hcEq ▸ List.mem_cons_self c t)
    have ht : '/' ∉ t := fun hm => h (List.mem_cons_of_mem c hm)
    rw [lastSegment_cons, ih ht]
    simp [hc]

/-- Conversely, a list with no last segment is slash-free. -/
theorem no_slash_of_lastSegment_eq_none (l : List Char)
    (h : lastSegment l = none) : '/' ∉ l := by
  induction l with
  | nil => simp
  | cons c t ih =>
    rw [lastSegment_cons] at h
    rcases hseg : lastSegment t with _ | seg
    · rw [hseg] at h
      simp only at h
      by_cases hc : c = '/'
      · rw [if_pos hc] at h
        exact absurd h (by simp)
      · intro hm
        rcases List.mem_cons.mp hm with h1 | h2
        · exact hc h1.symm
        · exact ih hseg h2
    · rw [hseg] at h
      simp at h

/-- The segment after the last slash contains no slash. -/
theorem lastSegment_no_slash (l seg : List Char)
    (h : lastSegment l = some seg) : '/' ∉ seg := by
  induction l with
  | nil => simp [lastSegment] at h
  | cons c t ih =>
    rw [lastSegment_cons] at h
    rcases hseg : lastSegment t with _ | seg'
    · rw [hseg] at h
      simp only at h
      by_cases hc : c = '/'
      · rw [if_pos hc] at h
        cases h
        exact no_slash_of_lastSegment_eq_none _ hseg
      · rw [if_neg hc] at h
        exact absurd h (by simp)
    · rw [hseg] at h
      simp only [Option.some.injEq] at h
      subst h
      exact ih hseg

/-- Splitting at an explicit last slash: appending `/seg` with a
slash-free `seg` makes `seg` the last segment. -/
theorem lastSegment_append (l seg : List Char) (h : '/' ∉ seg) :
    lastSegment (l ++ '/' :: seg) = some seg := by
  induction l with
  | nil =>
    rw [List.nil_append, lastSegment_cons, lastSegment_eq_none seg h]
    simp
  | cons c t ih =>
    rw [List.cons_append, lastSegment_cons, ih]

/-- One step of `replacePct23` on a character that is not `%`. -/
theorem replacePct23_cons_ne (c : Char) (t : List Char) (h : c ≠ '%') :
    replacePct23 (c :: t) = c :: replacePct23 t := by
  rw [replacePct23.eq_def]
  simp [h]

/-- `replacePct23` rewrites a leading `%23` to `#`. -/
theorem replacePct23_escape (rest2 : List Char) :
    replacePct23 ('%' :: '2' :: '3' :: rest2) = '#' :: replacePct23 rest2 := by
  rw [replacePct23.eq_def]
  simp

/-- `replacePct23` keeps a `%` not followed by `23`. -/
theorem replacePct23_pct_nomatch (r1 r2 : Char) (rest2 : List Char)
    (h : ¬(r1 = '2' ∧ r2 = '3')) :
    replacePct23 ('%' :: r1 :: r2 :: rest2) = '%' :: replacePct23 (r1 :: r2 :: rest2) := by
  rw [replacePct23.eq_def]
  simp [h]

/-- `replacePct23` keeps a `%` followed by a single character. -/
theorem replacePct23_pct_one (r1 : Char) :
    replacePct23 ['%', r1] = '%' :: replacePct23 [r1] := by
  rw [replacePct23.eq_def]
  simp

/-- `replacePct23` keeps a final `%`. -/
theorem replacePct23_pct_nil : replacePct23 ['%'] = ['%'] := by
  rw [replacePct23.eq_def]
  simp [replacePct23]

/-- Every character `replacePct23` emits is `#`, `%`, or drawn from its
input. -/
theorem replacePct23_chars (l : List Char) (x : Char)
    (hx : x ∈ replacePct23 l) : x ∈ l ∨ x = '#' ∨ x = '%' := by
  induction l using replacePct23.induct with
  | case1 => simp [replacePct23] at hx
  | case2 r1 r2 rest2 hr ih =>
    obtain ⟨rfl, rfl⟩ := hr
    rw [replacePct23_escape] at hx
    rcases List.mem_cons.mp hx with h1 | h2
    · exact Or.inr (Or.inl h1)
    · rcases ih h2 with h | h
      · refine Or.inl ?_
        simp only [List.mem_cons]
        tauto
      · exact Or.inr h
  | case3 r1 r2 rest2 hr ih =>
    rw [replacePct23_pct_nomatch r1 r2 rest2 hr] at hx
    rcases List.mem_cons.mp hx with h1 | h2
    · exact Or.inr (Or.inr h1)
    · rcases ih h2 with h | h
      · exact Or.inl (List.mem_cons_of_mem '%' h)
      · exact Or.inr h
  | case4 r1 ih =>
    rw [replacePct23_pct_one] at hx
    rcases List.mem_cons.mp hx with h1 | h2
    · exact Or.inr (Or.inr h1)
    · rcases ih h2 with h | h
      · exact Or.inl (List.mem_cons_of_mem '%' h)
      · exact Or.inr h
  | case5 ih =>
    rw [replacePct23_pct_nil] at hx
    rcases List.mem_cons.mp hx with h1 | h2
    · exact Or.inr (Or.inr h1)
    · simp at h2
  | case6 c rest hc ih =>
    rw [replacePct23_cons_ne c rest hc] at hx
    rcases List.mem_cons.mp hx with h1 | h2
    · exact Or.inl (h1 ▸ List.mem_cons_self c rest)
    · rcases ih h2 with h | h
      · exact Or.inl (List.mem_cons_of_mem c h)
      · exact Or.inr h

/-! ### Claim theorems -/

/-- Claim C10: for every raw href processed by `download_soundtracks`,
the derived filename contains no `/` character — it is the substring
after the last `/` of the decoded URL, and the `%23`-to-`#` replacement
introduces no `/` — so the output file path stays directly inside the
chosen output directory. -/
theorem filename_has_no_slash (raw : String) (target : DownloadTarget)
    (h : resolve_track_href raw = .ok target) :
    ('/' : Char) ∉ target.filename.data := by
  unfold resolve_track_href at h
  dsimp only at h
  rcases hseg : lastSegment (replaceHash (unquoteChars raw.data)) with _ | seg
  · rw [hseg] at h
    exact absurd h (by simp)
  · rw [hseg] at h
    simp only [Except.ok.injEq] at h
    subst h
    intro hmem
    rcases replacePct23_chars seg '/' hmem with hin | hch | hch
    · exact lastSegment_no_slash _ seg hseg hin
    · exact absurd hch (by decide)
    · exact absurd hch (by decide)

/-- Witness for C10 at a concrete href carrying an encoded `#`. -/
theorem filename_has_no_slash_witness :
    resolve_track_href "/ost/a/Track%20%2301.mp3" =
      .ok ⟨"/ost/a/Track %2301.mp3", "Track #01.mp3"⟩ ∧
    ('/' : Char) ∉ ("Track #01.mp3" : String).data :=
  ⟨by rfl, filename_has_no_slash "/ost/a/Track%20%2301.mp3"
    ⟨"/ost/a/Track %2301.mp3", "Track #01.mp3"⟩ (by rfl)⟩

/-- Claim C8, counterexample: on a track page with two download-link
elements, format index 2 makes `resolve_track` fail with the generic
out-of-range `IndexError` of Python list indexing — not with the
dedicated `InvalidFormatIndexError` the claim names (no such class
exists in the code). -/
theorem resolve_track_counterexample :
    resolve_track ⟨["/mp3/a.mp3", "/flac/a.flac"]⟩ 2 = .error .indexError ∧
    (Except.error PyErr.indexError : Except PyErr DownloadTarget) ≠
      .error .invalidFormatIndexError := by
  refine ⟨rfl, fun h => ?_⟩
  injection h with h2
  exact absurd h2 (by decide)

/-- Claim C8 (amended): for every track detail page and every
`format_index` at or beyond the number of download-link elements,
`resolve_track` fails with the out-of-range `IndexError` of Python list
indexing; the code defines no dedicated `InvalidFormatIndexError`. -/
theorem resolve_track_out_of_range (page : TrackPage) (i : Nat)
    (h : page.songDownloadLinkHrefs.length ≤ i) :
    resolve_track page i = .error .indexError := by
  unfold resolve_track
  rw [List.getElem?_eq_none h]

/-- Witness for the amended C8 at a concrete page and index. -/
theorem resolve_track_out_of_range_witness :
    (TrackPage.mk ["/mp3/a.mp3", "/flac/a.flac"]).songDownloadLinkHrefs.length ≤ 5 ∧
    resolve_track ⟨["/mp3/a.mp3", "/flac/a.flac"]⟩ 5 = .error .indexError :=
  ⟨by decide, resolve_track_out_of_range ⟨["/mp3/a.mp3", "/flac/a.flac"]⟩ 5 (by decide)⟩

/-- Claim C4, counterexample: on the size string `"5 GB"`, whose unit
token is not `"MB"`, size parsing does not fail — it silently returns
`5 * 1,000,000` bytes, never looking at the unit. -/
theorem parseSizeBytes_counterexample :
    parseSizeBytes "5 GB" = .ok 5000000 ∧ (parseSizeBytes "5 GB").isOk = true :=
  ⟨rfl, rfl⟩

/-- Claim C4 (amended): size parsing never examines the unit token: for
every unit `u` other than `"MB"`, a size string `"5 u"` still parses to
`5,000,000` bytes (first token times the fixed factor); parsing fails
only when the numeric token is malformed. -/
theorem parseSizeBytes_ignores_unit (u : String) (hu : u ≠ "MB") :
    parseSizeBytes ⟨'5' :: ' ' :: u.data⟩ = .ok 5000000 := by
  unfold parseSizeBytes
  simp [List.takeWhile_cons, pyInt]

/-- Witness for the amended C4 at the unrecognized unit `"GB"`. -/
theorem parseSizeBytes_ignores_unit_witness :
    ("GB" : String) ≠ "MB" ∧ parseSizeBytes ⟨'5' :: ' ' :: ("GB" : String).data⟩ = .ok 5000000 :=
  ⟨by decide, parseSizeBytes_ignores_unit "GB" (by decide)⟩

/-- `takeWhile` consumes exactly a prefix on which the predicate holds,
up to the first failing element. -/
theorem takeWhile_append_stop (p : Char → Bool) (t m : List Char)
    (ht : ∀ c ∈ t, p c = true) (x : Char) (hx : p x = false) :
    (t ++ x :: m).takeWhile p = t := by
  induction t with
  | nil => simp [List.takeWhile_cons, hx]
  | cons c t ih => simp_all [List.takeWhile_cons]

/-- Claim C3: for every size string `"<digits-with-optional-commas> MB"`,
the parser takes the characters before the space, removes the commas,
reads them as a decimal integer and scales by the decimal factor
1,000,000 (not 1,048,576). -/
theorem parseSizeBytes_exact (t : List Char)
    (h1 : ∀ c ∈ t, c.isDigit ∨ c = ',')
    (h2 : t.filter (fun c => c ≠ ',') ≠ []) :
    parseSizeBytes ⟨t ++ (' ' :: 'M' :: 'B' :: [])⟩ =
      .ok (decimalValue (t.filter (fun c => c ≠ ',')) * 1000000) := by
  have hsp : ∀ c ∈ t, (fun c => decide (c ≠ ' ')) c = true := by
    intro c hc
    rcases h1 c hc with hd | hcomma
    · simp only [decide_eq_true_eq]
      intro heq
      rw [heq] at hd
      exact absurd hd (by decide)
    · subst hcomma
      decide
  have hdigits : ∀ c ∈ t.filter (fun c => c ≠ ','), c.isDigit = true := by
    intro c hc
    rcases List.mem_filter.mp hc with ⟨hct, hcne⟩
    rcases h1 c hct with hd | hcomma
    · exact hd
    · rw [hcomma] at hcne
      exact absurd hcne (by decide)
  unfold parseSizeBytes
  rw [show (⟨t ++ (' ' :: 'M' :: 'B' :: [])⟩ : String).data =
        t ++ (' ' :: 'M' :: 'B' :: []) from rfl]
  rw [takeWhile_append_stop _ t _ hsp ' ' (by decide)]
  unfold pyInt
  rw [if_pos ⟨h2, List.all_eq_true.mpr hdigits⟩]
  rfl

/-- Witness for C3 at the spec's two example inputs,
`"1,234 MB"` and `"5 MB"`. -/
theorem parseSizeBytes_exact_witness :
    (∀ c ∈ ("1,234" : String).data, c.isDigit ∨ c = ',') ∧
    parseSizeBytes "1,234 MB" = .ok 1234000000 ∧
    parseSizeBytes "5 MB" = .ok 5000000 :=
  ⟨by decide,
   parseSizeBytes_exact ("1,234" : String).data (by decide) (by decide),
   parseSizeBytes_exact ("5" : String).data (by decide) (by decide)⟩

/-- Claim C1, counterexample: on a raw href whose last path segment is
`Track%20%2301.mp3`, the filename is `Track #01.mp3` as the claim says,
but the fetch URL's last path segment is `Track %2301.mp3`, not
`Track%20%2301.mp3`: `unquote` decodes `%20` to a literal space and only
`#` is re-encoded, so `%20` does not remain encoded in the fetch URL. -/
theorem resolve_href_counterexample :
    resolve_track_href "/a/Track%20%2301.mp3" =
      .ok ⟨"/a/Track %2301.mp3", "Track #01.mp3"⟩ ∧
    lastSegment ("/a/Track %2301.mp3" : String).data =
      some ("Track %2301.mp3" : String).data ∧
    ("Track %2301.mp3" : String) ≠ "Track%20%2301.mp3" := by
  refine ⟨rfl, rfl, ?_⟩
  decide

/-- Claim C1 (amended): for a raw href `<prefix>/Track%20%2301.mp3`
whose prefix carries no `%` and no `#`, `resolve_track_href` produces
filename exactly `Track #01.mp3` and source URL
`<prefix>/Track %2301.mp3`: the literal `#` is re-encoded as `%23` in
the fetch URL and decoded to `#` in the filename, while `%20` is decoded
to a literal space in the fetch URL rather than remaining encoded. -/
theorem resolve_href_roundtrip (p : List Char)
    (hp1 : '%' ∉ p) (hp2 : '#' ∉ p) :
    resolve_track_href ⟨p ++ ("/Track%20%2301.mp3" : String).data⟩ =
      .ok ⟨⟨p ++ ("/Track %2301.mp3" : String).data⟩, "Track #01.mp3"⟩ := by
  have h1 : unquoteChars (p ++ ("/Track%20%2301.mp3" : String).data) =
      p ++ ("/Track #01.mp3" : String).data := by
    rw [unquoteChars_append_of_no_pct p _ hp1]
    rfl
  have h2 : replaceHash (p ++ ("/Track #01.mp3" : String).data) =
      p ++ ("/Track %2301.mp3" : String).data := by
    rw [replaceHash_append_of_no_hash p _ hp2]
    rfl
  unfold resolve_track_href
  dsimp only
  rw [h1, h2]
  rw [show ("/Track %2301.mp3" : String).data =
        '/' :: ("Track %2301.mp3" : String).data from rfl]
  rw [lastSegment_append p _ (by decide)]
  rfl

/-- Witness for the amended C1 at the concrete prefix `/album`. -/
theorem resolve_href_roundtrip_witness :
    ('%' ∉ ("/album" : String).data ∧ '#' ∉ ("/album" : String).data) ∧
    resolve_track_href "/album/Track%20%2301.mp3" =
      .ok ⟨"/album/Track %2301.mp3", "Track #01.mp3"⟩ :=
  ⟨⟨by decide, by decide⟩,
   resolve_href_roundtrip ("/album" : String).data (by decide) (by decide)⟩

/-- Indexing into the every-4th-cell selection reads index `4 * i` of
the underlying cell sequence. -/
theorem every4th_getElem (l : List String) (i : Nat) :
    (every4th l)[i]? = l[4 * i]? := by
  induction l using every4th.induct generalizing i with
  | case1 => simp [every4th]
  | case2 x rest ih =>
    rw [every4th]
    cases i with
    | zero => simp
    | succ j =>
      rw [List.getElem?_cons_succ, ih j, List.getElem?_drop,
        show 4 * (j + 1) = (3 + 4 * j) + 1 from by omega,
        List.getElem?_cons_succ]

/-- The every-4th-cell selection keeps one cell per started block of
four. -/
theorem every4th_length (l : List String) :
    (every4th l).length = (l.length + 3) / 4 := by
  induction l using every4th.induct with
  | case1 => simp [every4th]
  | case2 x rest ih =>
    rw [every4th]
    simp only [List.length_cons, ih, List.length_drop]
    omega

/-- Claim C6: on a document-ordered sequence of `4 * n` marked cells,
track-URL extraction yields exactly `n` URLs, the `i`-th being the href
of the `(4 * i + 1)`-th marked cell (cells 0, 4, 8, …) prefixed with the
site's base origin, in source order. -/
theorem extractTrackUrls_every4th (cells : List String) (n : Nat)
    (h : cells.length = 4 * n) :
    (extractTrackUrls cells).length = n ∧
    ∀ i, i < n → (extractTrackUrls cells)[i]? =
      (cells[4 * i]?).map (fun href => BASE_URL ++ href) := by
  constructor
  · rw [extractTrackUrls, List.length_map, every4th_length, h]
    omega
  · intro i hi
    rw [extractTrackUrls, List.getElem?_map, every4th_getElem]

/-- Witness for C6 on a concrete 8-cell sequence (`n = 2`). -/
theorem extractTrackUrls_every4th_witness :
    (["/a", "/b", "/c", "/d", "/e", "/f", "/g", "/h"] : List String).length = 4 * 2 ∧
    (extractTrackUrls ["/a", "/b", "/c", "/d", "/e", "/f", "/g", "/h"]).length = 2 ∧
    (extractTrackUrls ["/a", "/b", "/c", "/d", "/e", "/f", "/g", "/h"])[1]? =
      some "https://downloads.khinsider.com/e" :=
  ⟨by decide,
   (extractTrackUrls_every4th ["/a", "/b", "/c", "/d", "/e", "/f", "/g", "/h"] 2
     (by decide)).1,
   ((extractTrackUrls_every4th ["/a", "/b", "/c", "/d", "/e", "/f", "/g", "/h"] 2
     (by decide)).2 1 (by decide)).trans (by rfl)⟩

/-- `findIdx?` finds nothing when `"MP3"` is absent, from any start
index. -/
theorem findIdx?_mp3_none (l : List String) (i : Nat) (h : "MP3" ∉ l) :
    List.findIdx? (fun th => th = "MP3") l i = none := by
  induction l generalizing i with
  | nil => rfl
  | cons a t ih =>
    have ha : a ≠ "MP3" := fun hEq => h (hEq ▸ List.mem_cons_self a t)
    rw [List.findIdx?_cons, if_neg (by simp [ha])]
    exact ih (i + 1) (fun hm => h (List.mem_cons_of_mem a hm))

/-- Claim C7: when a required structural element is absent — no
heading-level-2 title, fewer than two tables, or no header cell whose
text equals `"MP3"` — `get_album` fails (the parse error surfaces as the
exception of the failing step) and never returns a partial result. -/
theorem get_album_fails_on_missing_structure (page : HtmlPage)
    (h : page.h2s = [] ∨ page.tables.length < 2 ∨
      (∀ tbl, page.tables[1]? = some tbl → "MP3" ∉ tbl.ths)) :
    (get_album page).isOk = false := by
  unfold get_album
  cases hh : page.h2s.head? with
  | none => rfl
  | some title =>
    rcases h with h | h | h
    · rw [h] at hh
      exact absurd hh (by simp)
    · rw [List.getElem?_eq_none (by omega)]
      rfl
    · cases htab : page.tables[1]? with
      | none => rfl
      | some tbl =>
        dsimp only
        rw [findIdx?_mp3_none tbl.ths 0 (h tbl htab)]
        rfl

/-- Witness for C7 at a page with no `h2` heading. -/
theorem get_album_fails_on_missing_structure_witness :
    (HtmlPage.mk [] [] []).h2s = ([] : List String) ∧
    (get_album ⟨[], [], []⟩).isOk = false :=
  ⟨rfl, get_album_fails_on_missing_structure ⟨[], [], []⟩ (Or.inl rfl)⟩

/-- A constant page environment serving one track detail page whose
only download link resolves to `a.mp3`; used to instantiate the
download-loop theorems. -/
def constTrackPages : String → TrackPage := fun _ => ⟨["/x/a.mp3"]⟩

/-- Claim C9, counterexample: with `a.mp3` already present in the output
directory, processing one track still issues a network call — the
detail-page fetch (`get(url)`, main.py:197) happens before the existence
check — so the fetch log is non-empty, although the download itself is
skipped, the file list is unchanged and nothing is counted. -/
theorem download_skip_counterexample :
    download_soundtracks constTrackPages 0 ["https://downloads.khinsider.com/t1"]
        ⟨["a.mp3"], [], 0⟩ =
      .ok ⟨["a.mp3"], ["https://downloads.khinsider.com/t1"], 0⟩ ∧
    (["https://downloads.khinsider.com/t1"] : List String) ≠ [] :=
  ⟨rfl, by decide⟩

/-- Claim C9 (amended): for a track whose derived filename already
exists in the output directory, `download_soundtracks` skips the
download: the existing file is left unchanged, no fetch of the file's
`source_url` is issued, and the track is not counted as downloaded — but
the track's detail page is still fetched (`get(url)` runs before the
existence check), so one network call is issued for the track. -/
theorem download_skips_existing (pages : String → TrackPage)
    (audio_format : Nat) (url : String) (rest : List String)
    (st : DlState) (target : DownloadTarget)
    (hres : resolve_track (pages url) audio_format = .ok target)
    (hmem : target.filename ∈ st.files) :
    download_soundtracks pages audio_format (url :: rest) st =
      download_soundtracks pages audio_format rest
        ⟨st.files, st.fetched ++ [url], st.downloadCount⟩ := by
  rw [download_soundtracks, hres]
  dsimp only
  rw [if_pos hmem]

/-- Witness for the amended C9 at one concrete pre-existing file. -/
theorem download_skips_existing_witness :
    resolve_track (constTrackPages "u") 0 = .ok ⟨"/x/a.mp3", "a.mp3"⟩ ∧
    ("a.mp3" : String) ∈ (DlState.mk ["a.mp3"] [] 0).files ∧
    download_soundtracks constTrackPages 0 ["u"] ⟨["a.mp3"], [], 0⟩ =
      download_soundtracks constTrackPages 0 []
        ⟨(DlState.mk ["a.mp3"] [] 0).files,
         (DlState.mk ["a.mp3"] [] 0).fetched ++ ["u"],
         (DlState.mk ["a.mp3"] [] 0).downloadCount⟩ :=
  ⟨rfl, by decide,
   download_skips_existing constTrackPages 0 "u" [] ⟨["a.mp3"], [], 0⟩
     ⟨"/x/a.mp3", "a.mp3"⟩ rfl (by decide)⟩

/-- Embeds the eager reading of the lazy size-parsing `map`
(khinsider_downloader.py:107) over a whole list: all size texts parsed,
in order, failing as a whole when any single one fails. -/
def parseAllSizes : List String → Option (List Nat)
  | [] => some []
  | s :: rest =>
    match parseSizeBytes s, parseAllSizes rest with
    | .ok n, some vs => some (n :: vs)
    | _, _ => none

/-- A fully parsed size list has one value per size text. -/
theorem parseAllSizes_length (ss : List String) (vs : List Nat)
    (h : parseAllSizes ss = some vs) : vs.length = ss.length := by
  induction ss generalizing vs with
  | nil =>
    simp only [parseAllSizes, Option.some.injEq] at h
    subst h
    rfl
  | cons s rest ih =>
    rw [parseAllSizes] at h
    rcases hp : parseSizeBytes s with e | n
    · rw [hp] at h
      simp at h
    · rw [hp] at h
      rcases hr : parseAllSizes rest with _ | vs2
      · rw [hr] at h
        simp at h
      · rw [hr] at h
        simp only [Option.some.injEq] at h
        subst h
        simp [ih vs2 hr]

/-- When every size text parses and the format list has matching length,
the lazy zip-with-parse equals the plain zip with the parsed values. -/
theorem zipParseSizes_of_parseAll (fs ss : List String) (vs : List Nat)
    (h : parseAllSizes ss = some vs) (hlen : fs.length = ss.length) :
    zipParseSizes fs ss = .ok (fs.zip vs) := by
  induction fs generalizing ss vs with
  | nil =>
    cases ss with
    | nil =>
      simp only [parseAllSizes, Option.some.injEq] at h
      subst h
      rfl
    | cons s rest => simp at hlen
  | cons f fs2 ih =>
    cases ss with
    | nil => simp at hlen
    | cons s rest =>
      rw [parseAllSizes] at h
      rcases hp : parseSizeBytes s with e | n
      · rw [hp] at h
        simp at h
      · rw [hp] at h
        rcases hr : parseAllSizes rest with _ | vs2
        · rw [hr] at h
          simp at h
        · rw [hr] at h
          simp only [Option.some.injEq] at h
          subst h
          rw [zipParseSizes, hp, ih rest vs2 hr (by simpa using hlen)]
          rfl

/-- The format-collection loop returns exactly the non-empty trimmed
texts before the first empty trimmed text. -/
theorem collectFormats_spec (names : List String) (l rest : List String)
    (hne : ∀ x ∈ names, x ≠ "")
    (hrun : l.map pyStrip = names ++ "" :: rest) :
    collectFormats l = names := by
  induction names generalizing l with
  | nil =>
    cases l with
    | nil => simp at hrun
    | cons th l2 =>
      rw [List.map_cons, List.nil_append] at hrun
      injection hrun with h1 h2
      simp [collectFormats, h1]
  | cons n ns ih =>
    cases l with
    | nil => simp at hrun
    | cons th l2 =>
      rw [List.map_cons, List.cons_append] at hrun
      injection hrun with h1 h2
      have hn : n ≠ "" := hne n (List.mem_cons_self n ns)
      rw [collectFormats.eq_def]
      dsimp only
      rw [h1, if_neg hn, ih l2 (fun x hx => hne x (List.mem_cons_of_mem n hx)) h2]

/-- The Python suffix slice `[-(k+2):-1]` on a header list of shape
`front ++ duration :: sizes ++ [last]` with `k` sizes returns exactly
`duration :: sizes`. -/
theorem sliceDropLast1_eq (front : List String) (dur : String)
    (sts : List String) (lastc : String) :
    sliceDropLast1 (front ++ dur :: (sts ++ [lastc])) (sts.length + 2) = dur :: sts := by
  unfold sliceDropLast1
  have hassoc : front ++ dur :: (sts ++ [lastc]) = (front ++ dur :: sts) ++ [lastc] := by
    simp
  rw [hassoc]
  have hlen1 : ((front ++ dur :: sts) ++ [lastc]).length - 1 = (front ++ dur :: sts).length := by
    simp
  rw [hlen1, List.take_left]
  have hlen2 : ((front ++ dur :: sts) ++ [lastc]).length - (sts.length + 2) = front.length := by
    simp only [List.length_append, List.length_cons, List.length_nil]
    omega
  rw [hlen2, List.drop_left]

/-- Characterization of a successful `get_album` run on a well-formed
page: title from the first `h2`, format names from the MP3-anchored run
of non-empty trimmed header texts, duration and size texts from the
fixed-position suffix of the header cells, sizes parsed to bytes and
zipped with the names, and track URLs from every 4th marked cell. -/
theorem get_album_ok (page : HtmlPage) (tbl : HtmlTable)
    (hd : String) (t2 : List String) (m : Nat)
    (names trimRest front : List String) (dur : String)
    (sts : List String) (lastc : String) (vals : List Nat)
    (hh2 : page.h2s = hd :: t2)
    (htab : page.tables[1]? = some tbl)
    (hm : tbl.ths.findIdx? (fun th => th = "MP3") = some m)
    (hrun : (tbl.ths.drop m).map pyStrip = names ++ "" :: trimRest)
    (hne : ∀ x ∈ names, x ≠ "")
    (hshape : tbl.ths = front ++ dur :: (sts ++ [lastc]))
    (hcnt : sts.length = names.length)
    (hvals : parseAllSizes sts = some vals) :
    get_album page = .ok ⟨hd, dur, names.zip vals,
      extractTrackUrls page.clickableRowCells⟩ := by
  have hforms : collectFormats (tbl.ths.drop m) = names :=
    collectFormats_spec names (tbl.ths.drop m) trimRest hne hrun
  have hslice : sliceDropLast1 tbl.ths (names.length + 2) = dur :: sts := by
    rw [hshape, ← hcnt, sliceDropLast1_eq]
  have hzip : zipParseSizes names sts = .ok (names.zip vals) :=
    zipParseSizes_of_parseAll names sts vals hvals hcnt.symm
  unfold get_album
  rw [hh2, List.head?_cons]
  dsimp only
  rw [htab]
  dsimp only
  rw [hm]
  dsimp only
  rw [hforms, hslice]
  dsimp only
  rw [hzip]

/-- Claim C2: for a header-cell sequence whose first cell with exact
text `"MP3"` is at index `m`, the extracted format list is exactly the
run of trimmed texts of consecutive header cells from index `m` up to
(and stopping immediately at) the first cell whose trimmed text is
empty; on such a well-formed page `get_album` returns exactly `k`
format entries whose names are those header texts, in left-to-right
order. -/
theorem get_album_formats (page : HtmlPage) (tbl : HtmlTable)
    (hd : String) (t2 : List String) (m : Nat)
    (names trimRest front : List String) (dur : String)
    (sts : List String) (lastc : String) (vals : List Nat)
    (hh2 : page.h2s = hd :: t2)
    (htab : page.tables[1]? = some tbl)
    (hm : tbl.ths.findIdx? (fun th => th = "MP3") = some m)
    (hrun : (tbl.ths.drop m).map pyStrip = names ++ "" :: trimRest)
    (hne : ∀ x ∈ names, x ≠ "")
    (hshape : tbl.ths = front ++ dur :: (sts ++ [lastc]))
    (hcnt : sts.length = names.length)
    (hvals : parseAllSizes sts = some vals) :
    collectFormats (tbl.ths.drop m) = names ∧
    get_album page = .ok ⟨hd, dur, names.zip vals,
      extractTrackUrls page.clickableRowCells⟩ ∧
    (names.zip vals).map Prod.fst = names ∧
    (names.zip vals).length = names.length := by
  have hvl : vals.length = sts.length := parseAllSizes_length sts vals hvals
  refine ⟨collectFormats_spec names _ trimRest hne hrun,
    get_album_ok page tbl hd t2 m names trimRest front dur sts lastc vals
      hh2 htab hm hrun hne hshape hcnt hvals, ?_, ?_⟩
  · exact List.map_fst_zip names vals (by omega)
  · rw [List.length_zip]
    omega

/-- Claim C5: with `k` extracted format names, the album duration is the
text of the `(k+2)`-th-from-last header cell, the `k` size texts are the
`(k+1)`-th-from-last through 2nd-from-last header cells, and they are
paired with the format names in the same order. -/
theorem get_album_duration_and_sizes (page : HtmlPage) (tbl : HtmlTable)
    (hd : String) (t2 : List String) (m : Nat)
    (names trimRest front : List String) (dur : String)
    (sts : List String) (lastc : String) (vals : List Nat)
    (hh2 : page.h2s = hd :: t2)
    (htab : page.tables[1]? = some tbl)
    (hm : tbl.ths.findIdx? (fun th => th = "MP3") = some m)
    (hrun : (tbl.ths.drop m).map pyStrip = names ++ "" :: trimRest)
    (hne : ∀ x ∈ names, x ≠ "")
    (hshape : tbl.ths = front ++ dur :: (sts ++ [lastc]))
    (hcnt : sts.length = names.length)
    (hvals : parseAllSizes sts = some vals) :
    get_album page = .ok ⟨hd, dur, names.zip vals,
      extractTrackUrls page.clickableRowCells⟩ ∧
    tbl.ths[tbl.ths.length - (names.length + 2)]? = some dur ∧
    (tbl.ths.drop (tbl.ths.length - (names.length + 1))).take names.length = sts := by
  have hlenths : tbl.ths.length = front.length + sts.length + 2 := by
    rw [hshape]
    simp only [List.length_append, List.length_cons, List.length_nil]
    omega
  refine ⟨get_album_ok page tbl hd t2 m names trimRest front dur sts lastc vals
    hh2 htab hm hrun hne hshape hcnt hvals, ?_, ?_⟩
  · have hidx : tbl.ths.length - (names.length + 2) = front.length := by omega
    rw [hidx, hshape, List.getElem?_append_right (le_refl front.length)]
    simp
  · have hidx2 : tbl.ths.length - (names.length + 1) = front.length + 1 := by omega
    have hsplit : front ++ dur :: (sts ++ [lastc]) =
        (front ++ [dur]) ++ (sts ++ [lastc]) := by
      simp
    rw [hidx2, hshape, hsplit, List.drop_left' (by simp), List.take_left' hcnt]

/-- A concrete well-formed soundtracks table: two formats (`MP3`,
`FLAC`), the empty sentinel cell, then the duration and size suffix. -/
def tblW : HtmlTable := ⟨["Track", "MP3", "FLAC", "", "1:00", "5 MB", "1,234 MB", "x"]⟩

/-- A concrete well-formed album page around `tblW`. -/
def pageW : HtmlPage :=
  ⟨["Minecraft - Volume Alpha"], [⟨["Song Name"]⟩, tblW], ["/a", "/b", "/c", "/d"]⟩

/-- Witness for C2 on the concrete page `pageW` (`k = 2` formats). -/
theorem get_album_formats_witness :
    ((tblW.ths.drop 1).map pyStrip =
      ["MP3", "FLAC"] ++ "" :: ["1:00", "5 MB", "1,234 MB", "x"]) ∧
    (collectFormats (tblW.ths.drop 1) = ["MP3", "FLAC"] ∧
     get_album pageW = .ok ⟨"Minecraft - Volume Alpha", "1:00",
       (["MP3", "FLAC"] : List String).zip [5000000, 1234000000],
       extractTrackUrls pageW.clickableRowCells⟩ ∧
     ((["MP3", "FLAC"] : List String).zip [5000000, 1234000000]).map Prod.fst =
       ["MP3", "FLAC"] ∧
     ((["MP3", "FLAC"] : List String).zip [5000000, 1234000000]).length =
       (["MP3", "FLAC"] : List String).length) :=
  ⟨rfl, get_album_formats pageW tblW "Minecraft - Volume Alpha" [] 1
    ["MP3", "FLAC"] ["1:00", "5 MB", "1,234 MB", "x"] ["Track", "MP3", "FLAC", ""]
    "1:00" ["5 MB", "1,234 MB"] "x" [5000000, 1234000000]
    rfl rfl rfl rfl (by decide) rfl rfl rfl⟩

/-- Witness for C5 on the concrete page `pageW`: the duration `1:00` is
the 4th-from-last header cell and the two size texts precede the final
cell, paired with the formats in order. -/
theorem get_album_duration_and_sizes_witness :
    (tblW.ths = ["Track", "MP3", "FLAC", ""] ++
      "1:00" :: (["5 MB", "1,234 MB"] ++ ["x"])) ∧
    (get_album pageW = .ok ⟨"Minecraft - Volume Alpha", "1:00",
       (["MP3", "FLAC"] : List String).zip [5000000, 1234000000],
       extractTrackUrls pageW.clickableRowCells⟩ ∧
     tblW.ths[tblW.ths.length - ((["MP3", "FLAC"] : List String).length + 2)]? =
       some "1:00" ∧
     (tblW.ths.drop
        (tblW.ths.length - ((["MP3", "FLAC"] : List String).length + 1))).take
       (["MP3", "FLAC"] : List String).length = ["5 MB", "1,234 MB"]) :=
  ⟨rfl, get_album_duration_and_sizes pageW tblW "Minecraft - Volume Alpha" [] 1
    ["MP3", "FLAC"] ["1:00", "5 MB", "1,234 MB", "x"] ["Track", "MP3", "FLAC", ""]
    "1:00" ["5 MB", "1,234 MB"] "x" [5000000, 1234000000]
    rfl rfl rfl rfl (by decide) rfl rfl rfl⟩
